import Mathlib

/-!
Shallow embedding of the aggregation core of the freelens-sre-stats
extension: node status classification, taint aggregation, pod phase
classification, warning-event aggregation, namespace issue scoring,
heatmap bucketization and the cluster health score, together with the
verification of the specified properties.
-/

namespace SreStats

/-- JS `x || d` for an optional string `x`: both `undefined` and the empty
string are falsy and fall back to `d`. -/
def jsOrElse (s : Option String) (d : String) : String :=
  match s with
  | none => d
  | some s => if s = "" then d else s

/-- JS `Math.round`: rounds half toward positive infinity. -/
def jsRound (q : ℚ) : ℤ := ⌊q + 1/2⌋

/-! ## Data model (host-supplied cluster objects, §3 of the spec) -/

/-- One entry of a node's `conditions` sequence. -/
structure NodeCondition where
  type_ : String
  status : String
deriving DecidableEq

/-- One node taint. -/
structure Taint where
  key : String
  value : Option String
  effect : String
deriving DecidableEq

/-- Modelled from the spec: the host library's `formatNodeTaint`
(from `@freelensapp/kube-object`, not part of this repository) formats a
taint to a canonical `key=value:effect` label string. -/
def formatNodeTaint (t : Taint) : String :=
  match t.value with
  | some v => t.key ++ "=" ++ v ++ ":" ++ t.effect
  | none => t.key ++ ":" ++ t.effect

/-- A node as consumed by the aggregation core: name, schedulability flag,
condition sequence and taint sequence. -/
structure Node where
  name : String
  unschedulable : Bool
  conditions : List NodeCondition
  taints : List Taint
deriving DecidableEq

/-- A pod as consumed by the aggregation core. `hasIssues` is the
host-provided predicate `pod.hasIssues()` and `restarts` the host-provided
`pod.getRestartsCount()`; both are consumed as given (spec §4.5). `ns` is
`pod.getNs()` and `phase` is `pod.getStatusPhase()`. -/
structure Pod where
  name : String
  ns : Option String
  phase : String
  hasIssues : Bool
  restarts : Nat
deriving DecidableEq

/-- An event as consumed by the aggregation core. `isWarning` is the
host-provided `event.isWarning()`, `ns` is `event.getNs()`, `objName` and
`objNs` are `event.involvedObject.name` / `.namespace`, and `count` is the
optional repeat count. -/
structure KubeEvent where
  reason : Option String
  isWarning : Bool
  type_ : String
  count : Option Nat
  ns : Option String
  objName : String
  objNs : Option String
deriving DecidableEq

/-! ## Insertion-order maps (JS `Map`) and sets (JS `Set`)

A JS `Map` iterates entries in key-insertion order; `set` on a present key
updates in place, on an absent key appends. We model it as an association
list with those semantics. -/

/-- Lookup of the value at the first occurrence of key `k`. -/
def lookupA {β : Type} : List (String × β) → String → Option β
  | [], _ => none
  | (k, v) :: rest, k' => if k = k' then some v else lookupA rest k'

/-- JS `Map.set`: update in place if the key is present, else append. -/
def setA {β : Type} : List (String × β) → String → β → List (String × β)
  | [], k, v => [(k, v)]
  | (k', v') :: rest, k, v =>
    if k' = k then (k, v) :: rest else (k', v') :: setA rest k v

/-- JS `Set.add` restricted to what the core needs: append the element if
absent, keeping insertion order. -/
def insertIfAbsent (l : List String) (s : String) : List String :=
  if s ∈ l then l else l ++ [s]

/-- The common accumulation pattern of every aggregation loop in the
source: for each element, `map.set(key(a), step(a, map.get(key(a))))`,
where `step a none` starts from the loop's default record. -/
def groupGo {α β : Type} (key : α → String) (step : α → Option β → β) :
    List α → List (String × β) → List (String × β)
  | [], m => m
  | a :: rest, m => groupGo key step rest (setA m (key a) (step a (lookupA m (key a))))

/-- Iterated application of a `step` function, used to describe the value
a `groupGo` run leaves at one key. -/
def chainStep {α β : Type} (step : α → Option β → β) :
    List α → Option β → Option β
  | [], i => i
  | a :: rest, i => chainStep step rest (some (step a i))

/-! ### Lemmas about the map model -/

theorem lookupA_setA_self {β : Type} (m : List (String × β)) (k : String) (v : β) :
    lookupA (setA m k v) k = some v := by
  induction m with
  | nil => simp [setA, lookupA]
  | cons p rest ih =>
    obtain ⟨k', v'⟩ := p
    by_cases h : k' = k
    · simp [setA, h, lookupA]
    · simp [setA, h, lookupA, ih]

theorem lookupA_setA_ne {β : Type} (m : List (String × β)) (k k' : String) (v : β)
    (h : k ≠ k') : lookupA (setA m k v) k' = lookupA m k' := by
  induction m with
  | nil => simp [setA, lookupA, h]
  | cons p rest ih =>
    obtain ⟨k₀, v₀⟩ := p
    by_cases h0 : k₀ = k
    · subst h0
      simp [setA, lookupA, h]
    · simp [setA, h0, lookupA, ih]

theorem lookupA_mem {β : Type} {m : List (String × β)} {k : String} {v : β}
    (h : lookupA m k = some v) : (k, v) ∈ m := by
  induction m with
  | nil => simp [lookupA] at h
  | cons p rest ih =>
    obtain ⟨k₀, v₀⟩ := p
    by_cases h0 : k₀ = k
    · subst h0
      simp [lookupA] at h
      simp [h]
    · simp [lookupA, h0] at h
      exact List.mem_cons_of_mem _ (ih h)

theorem mem_setA {β : Type} {m : List (String × β)} {k : String} {v : β} {p : String × β}
    (h : p ∈ setA m k v) : p = (k, v) ∨ p ∈ m := by
  induction m with
  | nil => simpa [setA] using h
  | cons q rest ih =>
    obtain ⟨k₀, v₀⟩ := q
    by_cases h0 : k₀ = k
    · simp [setA, h0] at h
      rcases h with h | h
      · exact Or.inl h
      · exact Or.inr (List.mem_cons_of_mem _ h)
    · simp [setA, h0] at h
      rcases h with h | h
      · exact Or.inr (by simp [h])
      · rcases ih h with h' | h'
        · exact Or.inl h'
        · exact Or.inr (List.mem_cons_of_mem _ h')

theorem keys_setA_of_lookup_some {β : Type} {m : List (String × β)} {k : String} (v : β)
    (h : (lookupA m k).isSome) : (setA m k v).map Prod.fst = m.map Prod.fst := by
  induction m with
  | nil => simp [lookupA] at h
  | cons q rest ih =>
    obtain ⟨k₀, v₀⟩ := q
    by_cases h0 : k₀ = k
    · simp [setA, h0]
    · simp [lookupA, h0] at h
      simp [setA, h0, ih h]

theorem keys_setA_of_lookup_none {β : Type} {m : List (String × β)} {k : String} (v : β)
    (h : lookupA m k = none) : (setA m k v).map Prod.fst = m.map Prod.fst ++ [k] := by
  induction m with
  | nil => simp [setA]
  | cons q rest ih =>
    obtain ⟨k₀, v₀⟩ := q
    by_cases h0 : k₀ = k
    · simp [lookupA, h0] at h
    · simp [lookupA, h0] at h
      simp [setA, h0, ih h]

theorem lookupA_eq_none_iff {β : Type} {m : List (String × β)} {k : String} :
    lookupA m k = none ↔ k ∉ m.map Prod.fst := by
  induction m with
  | nil => simp [lookupA]
  | cons q rest ih =>
    obtain ⟨k₀, v₀⟩ := q
    by_cases h0 : k₀ = k
    · simp [lookupA, h0]
    · simp [lookupA, h0, ih, Ne.symm h0]

theorem mem_keys_setA {β : Type} {m : List (String × β)} {k k₀ : String} {v : β} :
    k ∈ (setA m k₀ v).map Prod.fst ↔ k = k₀ ∨ k ∈ m.map Prod.fst := by
  rcases h : lookupA m k₀ with _ | b
  · rw [keys_setA_of_lookup_none v h]
    simp [or_comm]
  · rw [keys_setA_of_lookup_some v (by simp [h])]
    have hk : k₀ ∈ m.map Prod.fst := by
      by_contra hc
      rw [← lookupA_eq_none_iff] at hc
      simp [hc] at h
    constructor
    · exact Or.inr
    · rintro (rfl | hm)
      · exact hk
      · exact hm

theorem nodup_keys_setA {β : Type} {m : List (String × β)} {k : String} {v : β}
    (h : (m.map Prod.fst).Nodup) : ((setA m k v).map Prod.fst).Nodup := by
  rcases hl : lookupA m k with _ | b
  · rw [keys_setA_of_lookup_none v hl]
    have : k ∉ m.map Prod.fst := lookupA_eq_none_iff.mp hl
    simp [List.nodup_append, this, h]
  · rw [keys_setA_of_lookup_some v (by simp [hl])]
    exact h

theorem groupGo_keys_mem {α β : Type} (key : α → String) (step : α → Option β → β)
    (l : List α) (m : List (String × β)) (k : String) :
    k ∈ (groupGo key step l m).map Prod.fst ↔
      k ∈ m.map Prod.fst ∨ k ∈ l.map key := by
  induction l generalizing m with
  | nil => simp [groupGo]
  | cons a rest ih =>
    simp only [groupGo, ih, mem_keys_setA, List.map_cons, List.mem_cons]
    tauto

theorem groupGo_keys_nodup {α β : Type} (key : α → String) (step : α → Option β → β)
    (l : List α) (m : List (String × β)) (h : (m.map Prod.fst).Nodup) :
    ((groupGo key step l m).map Prod.fst).Nodup := by
  induction l generalizing m with
  | nil => exact h
  | cons a rest ih => exact ih _ (nodup_keys_setA h)

theorem groupGo_invariant {α β : Type} {key : α → String} {step : α → Option β → β}
    {P : β → Prop}
    (hstep : ∀ a ob, (∀ b, ob = some b → P b) → P (step a ob)) :
    ∀ (l : List α) (m : List (String × β)), (∀ p ∈ m, P p.2) →
      ∀ p ∈ groupGo key step l m, P p.2
  | [], _, hm => hm
  | a :: rest, m, hm => by
    refine groupGo_invariant hstep rest _ ?_
    intro p hp
    rcases mem_setA hp with rfl | hp'
    · exact hstep a _ (fun b hb => hm _ (lookupA_mem hb))
    · exact hm _ hp'

theorem groupGo_lookupA {α β : Type} (key : α → String) (step : α → Option β → β)
    (l : List α) (m : List (String × β)) (k : String) :
    lookupA (groupGo key step l m) k =
      chainStep step (l.filter (fun a => key a = k)) (lookupA m k) := by
  induction l generalizing m with
  | nil => simp [groupGo, chainStep]
  | cons a rest ih =>
    by_cases h : key a = k
    · subst h
      simp [groupGo, ih, List.filter_cons, lookupA_setA_self, chainStep]
    · simp only [groupGo, ih, List.filter_cons]
      rw [lookupA_setA_ne _ _ _ _ h]
      simp [h]

/-- Sum of `f` over the values of an association list. -/
def sumValsBy {β : Type} (f : β → Nat) (m : List (String × β)) : Nat :=
  (m.map (fun p => f p.2)).sum

theorem sumValsBy_setA {β : Type} (f : β → Nat) (m : List (String × β)) (k : String) (v : β) :
    sumValsBy f (setA m k v) + (match lookupA m k with | some b => f b | none => 0) =
      sumValsBy f m + f v := by
  induction m with
  | nil => simp [setA, lookupA, sumValsBy]
  | cons p rest ih =>
    obtain ⟨k₀, v₀⟩ := p
    by_cases h0 : k₀ = k
    · subst h0
      simp [setA, lookupA, sumValsBy]
      omega
    · simp only [setA, if_neg h0, lookupA, if_neg h0, sumValsBy, List.map_cons,
        List.sum_cons]
      simp only [sumValsBy] at ih
      omega

theorem groupGo_sumValsBy {α β : Type} (key : α → String) (step : α → Option β → β)
    (f : β → Nat) (g : α → Nat)
    (hstep : ∀ a ob, f (step a ob) =
      (match ob with | some b => f b | none => 0) + g a) :
    ∀ (l : List α) (m : List (String × β)),
      sumValsBy f (groupGo key step l m) = sumValsBy f m + (l.map g).sum
  | [], m => by simp [groupGo]
  | a :: rest, m => by
    have hset := sumValsBy_setA f m (key a) (step a (lookupA m (key a)))
    have hs := hstep a (lookupA m (key a))
    simp only [groupGo, List.map_cons, List.sum_cons]
    rw [groupGo_sumValsBy key step f g hstep rest]
    omega

/-! ## NodeStatusClassifier (`getNodeStatus`, nodes-page.tsx / sre-stats-page.tsx) -/

/-- The four node status categories. -/
inductive NodeStatus where
  | ready
  | notReady
  | schedulingDisabled
  | unknown
deriving DecidableEq

/-- Embeds `getNodeStatus` (nodes-page.tsx lines 42-54, identical copy in
sre-stats-page.tsx lines 37-49). -/
def getNodeStatus (node : Node) : NodeStatus :=
  if node.unschedulable then .schedulingDisabled
  else
    match node.conditions.find? (fun c => c.type_ == "Ready") with
    | none => .unknown
    | some c => if c.status == "True" then .ready else .notReady

/-! ## TaintAggregator (`buildTaintSummary`, nodes-page.tsx / sre-stats-page.tsx) -/

/-- Accumulator per taint label: JS `{ nodes: Set<string>, occurrences }`. -/
structure TaintAcc where
  nodes : List String
  occurrences : Nat
deriving DecidableEq

/-- One loop iteration of `buildTaintSummary` for the pair
(node name, formatted taint label). -/
def taintStep (p : String × String) (ob : Option TaintAcc) : TaintAcc :=
  let a := ob.getD ⟨[], 0⟩
  ⟨insertIfAbsent a.nodes p.1, a.occurrences + 1⟩

/-- Output record of the taint aggregation. -/
structure TaintSummaryItem where
  taint : String
  nodes : Nat
  occurrences : Nat
deriving DecidableEq

/-- Embeds `buildTaintSummary` (nodes-page.tsx lines 56-73, identical copy
in sre-stats-page.tsx lines 75-92): the nested node/taint loop is the flat
loop over (node name, taint label) pairs in order. -/
def buildTaintSummary (nodes : List Node) : List TaintSummaryItem :=
  let pairs := nodes.flatMap (fun n => n.taints.map (fun t => (n.name, formatNodeTaint t)))
  let m := groupGo Prod.snd taintStep pairs []
  (m.map (fun p => ⟨p.1, p.2.nodes.length, p.2.occurrences⟩)).mergeSort
    (fun a b => b.occurrences ≤ a.occurrences)

/-! ## PodPhaseClassifier (`getPodPhase`, pods-page.tsx / sre-stats-page.tsx) -/

/-- The five pod phase categories. -/
inductive PodPhase where
  | running
  | pending
  | failed
  | succeeded
  | unknown
deriving DecidableEq

/-- Embeds `getPodPhase` (pods-page.tsx lines 31-43, identical copy in
sre-stats-page.tsx lines 51-63): the four phase literals pass through,
everything else collapses to `Unknown`. -/
def getPodPhase (pod : Pod) : PodPhase :=
  if pod.phase == "Running" then .running
  else if pod.phase == "Pending" then .pending
  else if pod.phase == "Failed" then .failed
  else if pod.phase == "Succeeded" then .succeeded
  else .unknown

/-! ## WarningEventAggregator -/

/-- Namespace key used by `buildWarningEventsByNamespace`:
`event.getNs() ?? event.involvedObject?.namespace ?? "<cluster>"`. -/
def eventNsKey (e : KubeEvent) : String :=
  ((e.ns).or e.objNs).getD "<cluster>"

/-- One loop iteration of `buildWarningEventsByNamespace`:
`(warnings.get(namespace) ?? 0) + count` with `count = event.count ?? 1`. -/
def warnNsStep (e : KubeEvent) (ob : Option Nat) : Nat :=
  ob.getD 0 + e.count.getD 1

/-- Embeds `buildWarningEventsByNamespace` (pods-page.tsx lines 104-119,
identical copy in sre-stats-page.tsx lines 94-109). Non-warning events are
skipped (`continue`). -/
def buildWarningEventsByNamespace (events : List KubeEvent) : List (String × Nat) :=
  groupGo eventNsKey warnNsStep (events.filter (·.isWarning)) []

/-- Reason key used by `buildWarningReasons`: `event.reason ?? "<unknown>"`. -/
def eventReasonKey (e : KubeEvent) : String := e.reason.getD "<unknown>"

/-- Accumulator per reason in the events page: JS
`{ count, namespaces: Set<string>, resources: string[] }`. -/
structure ReasonAcc where
  count : Nat
  namespaces : List String
  resources : List String
deriving DecidableEq

/-- One loop iteration of the events page `buildWarningReasons`:
add the repeat count, add the namespace (`involvedObject.namespace ||
"cluster"`) to the set, and push the resource name while fewer than 10
samples are held. -/
def reasonStep (e : KubeEvent) (ob : Option ReasonAcc) : ReasonAcc :=
  let a := ob.getD ⟨0, [], []⟩
  { count := a.count + e.count.getD 1,
    namespaces := insertIfAbsent a.namespaces (jsOrElse e.objNs "cluster"),
    resources := if a.resources.length < 10 then a.resources ++ [e.objName] else a.resources }

/-- Output record of the by-reason warning aggregation. -/
structure WarningReasonItem where
  reason : String
  count : Nat
  namespaces : List String
  resources : List String
deriving DecidableEq

/-- Embeds `buildWarningReasons` of the events page (unnamed source file,
lines 29-59). -/
def buildWarningReasons (events : List KubeEvent) : List WarningReasonItem :=
  let m := groupGo eventReasonKey reasonStep (events.filter (·.isWarning)) []
  (m.map (fun p => ⟨p.1, p.2.count, p.2.namespaces, p.2.resources⟩)).mergeSort
    (fun a b => b.count ≤ a.count)

/-- Result record of `eventSummary`. -/
structure EventSummary where
  warnings : Nat
  normals : Nat
  others : Nat
  total : Nat
deriving DecidableEq

/-- The accumulation loop of `eventSummary` (sre-stats-page.tsx lines
293-311) over (warnings, normals, others). -/
def eventSummaryGo : List KubeEvent → Nat → Nat → Nat → Nat × Nat × Nat
  | [], w, n, o => (w, n, o)
  | e :: rest, w, n, o =>
    let c := e.count.getD 1
    if e.isWarning then eventSummaryGo rest (w + c) n o
    else if e.type_ == "Normal" then eventSummaryGo rest w (n + c) o
    else eventSummaryGo rest w n (o + c)

/-- Embeds `eventSummary` (sre-stats-page.tsx lines 293-311). -/
def eventSummary (events : List KubeEvent) : EventSummary :=
  let t := eventSummaryGo events 0 0 0
  ⟨t.1, t.2.1, t.2.2, t.1 + t.2.1 + t.2.2⟩

/-- Modelled from the spec: "the total warning count of the input (sum of
count, defaulting to 1 when absent, over warning events)". -/
def specWarningTotal (events : List KubeEvent) : Nat :=
  ((events.filter (·.isWarning)).map (fun e => e.count.getD 1)).sum

/-! ## NamespaceIssueScorer (`buildNamespacePodStats`) -/

/-- Output record of the namespace issue scorer. -/
structure NamespacePodStats where
  ns : String
  running : Nat
  pending : Nat
  failed : Nat
  succeeded : Nat
  unknown : Nat
  issues : Nat
  restarts : Nat
  warningEvents : Nat
  issueScore : Nat
  total : Nat
deriving DecidableEq

/-- Namespace key of a pod: `pod.getNs() ?? "<unknown>"`. -/
def podNsKey (p : Pod) : String := p.ns.getD "<unknown>"

/-- One loop iteration of `buildNamespacePodStats`: create the default
entry if absent (with `warningEvents` preset from the mapping), then bump
total, the matching phase counter, the issue counter, and the restart
total. -/
def podStep (wmap : List (String × Nat)) (p : Pod) (ob : Option NamespacePodStats) :
    NamespacePodStats :=
  let e := ob.getD
    { ns := podNsKey p, running := 0, pending := 0, failed := 0, succeeded := 0,
      unknown := 0, issues := 0, restarts := 0,
      warningEvents := (lookupA wmap (podNsKey p)).getD 0, issueScore := 0, total := 0 }
  let e := { e with total := e.total + 1 }
  let e :=
    match getPodPhase p with
    | .running => { e with running := e.running + 1 }
    | .pending => { e with pending := e.pending + 1 }
    | .failed => { e with failed := e.failed + 1 }
    | .succeeded => { e with succeeded := e.succeeded + 1 }
    | .unknown => { e with unknown := e.unknown + 1 }
  let e := if p.hasIssues then { e with issues := e.issues + 1 } else e
  { e with restarts := e.restarts + p.restarts }

/-- The second pass of `buildNamespacePodStats`: overwrite `warningEvents`
from the mapping and compute `issueScore = issues + restarts +
warningEvents`. -/
def podFinalize (wmap : List (String × Nat)) (e : NamespacePodStats) : NamespacePodStats :=
  let e := { e with warningEvents := (lookupA wmap e.ns).getD 0 }
  { e with issueScore := e.issues + e.restarts + e.warningEvents }

/-- Embeds `buildNamespacePodStats` (pods-page.tsx lines 121-178, identical
copy in sre-stats-page.tsx lines 111-168): group pods by namespace, run the
finalize pass over the values, and sort by the comparator
`b.issues - a.issues || b.total - a.total`. -/
def buildNamespacePodStats (pods : List Pod) (wmap : List (String × Nat)) :
    List NamespacePodStats :=
  let stats := groupGo podNsKey (podStep wmap) pods []
  ((stats.map (fun p => podFinalize wmap p.2)).mergeSort
    (fun a b => b.issues < a.issues || (b.issues == a.issues && b.total ≤ a.total)))

/-! ## HeatmapBucketizer (`heatmapEntries`, pods-page.tsx / sre-stats-page.tsx) -/

/-- JS `Math.max(0, ...scores)` over the issue scores. -/
def maxIssueScore (l : List NamespacePodStats) : Nat :=
  l.foldr (fun e m => max e.issueScore m) 0

/-- A namespace stats record annotated with its heatmap intensity bucket
(JS `{ ...entry, intensity }`). -/
structure HeatmapEntry extends NamespacePodStats where
  intensity : Nat
deriving DecidableEq

/-- The intensity computation of `heatmapEntries`:
`ratio = maxScore === 0 ? 0 : score / maxScore` and
`ratio >= 0.75 ? 4 : ratio >= 0.5 ? 3 : ratio >= 0.25 ? 2 : ratio > 0 ? 1 : 0`. -/
def bucketOf (maxScore score : Nat) : Nat :=
  let q : ℚ := if maxScore = 0 then 0 else (score : ℚ) / (maxScore : ℚ)
  if (3 : ℚ)/4 ≤ q then 4
  else if (1 : ℚ)/2 ≤ q then 3
  else if (1 : ℚ)/4 ≤ q then 2
  else if 0 < q then 1
  else 0

/-- Embeds `heatmapEntries` (pods-page.tsx lines 258-270, identical copy in
sre-stats-page.tsx lines 279-291). -/
def heatmapEntries (l : List NamespacePodStats) : List HeatmapEntry :=
  let maxScore := maxIssueScore l
  l.map (fun e => { toNamespacePodStats := e, intensity := bucketOf maxScore e.issueScore })

/-! ## ClusterHealthScorer (`summary` / `clusterHealthScore`, overview-page.tsx) -/

/-- The per-node not-ready test of the overview `summary` (overview-page.tsx
lines 122-126): the first condition of type "Ready" does not have status
"True" (a missing condition counts as not ready). -/
def nodeNotReadyPred (node : Node) : Bool :=
  match node.conditions.find? (fun c => c.type_ == "Ready") with
  | some c => c.status != "True"
  | none => true

/-- `nodesNotReady` of the overview `summary`. -/
def nodesNotReady (nodes : List Node) : Nat := nodes.countP nodeNotReadyPred

/-- `podsWithIssues` of the overview `summary`: pods with `pod.hasIssues()`. -/
def podsWithIssues (pods : List Pod) : Nat := pods.countP (·.hasIssues)

/-- `failedPods` of the overview `summary`: pods whose reported phase is the
literal "Failed". -/
def failedPods (pods : List Pod) : Nat := pods.countP (fun p => p.phase == "Failed")

/-- `warningEvents` of the overview `summary` (overview-page.tsx lines
132-140): sum of `count ?? 1` over events with `isWarning()`. -/
def warningEventsCount : List KubeEvent → Nat
  | [] => 0
  | e :: rest =>
    if e.isWarning then e.count.getD 1 + warningEventsCount rest
    else warningEventsCount rest

/-- Embeds `clusterHealthScore` (overview-page.tsx lines 142-149). -/
def clusterHealthScore (nodes : List Node) (pods : List Pod)
    (events : List KubeEvent) : ℤ :=
  if 0 < nodes.length then
    jsRound
      ((((nodes.length : ℚ) - (nodesNotReady nodes : ℚ)) / (nodes.length : ℚ)) * 40 +
        (((pods.length : ℚ) - (podsWithIssues pods : ℚ) - (failedPods pods : ℚ)) /
          max (pods.length : ℚ) 1) * 40 +
        (if warningEventsCount events = 0 then 20
         else max 0 (20 - (warningEventsCount events : ℚ))))
  else 100

/-! ## Concrete sample inputs used to exercise the theorems -/

/-- A schedulable node whose single condition is Ready/True. -/
def readyNode : Node := ⟨"node-ready", false, [⟨"Ready", "True"⟩], []⟩

/-- A schedulable node with no conditions at all. -/
def bareNode : Node := ⟨"node-bare", false, [], []⟩

/-- An unschedulable (cordoned) node. -/
def cordonedNode : Node := ⟨"node-cordoned", true, [⟨"Ready", "True"⟩], []⟩

/-- A pod in phase Failed that the host also flags as having issues. -/
def failedIssuePod : Pod := ⟨"pod-failed", some "a", "Failed", true, 0⟩

/-- A healthy running pod. -/
def runningPod : Pod := ⟨"pod-running", some "a", "Running", false, 0⟩

/-- A warning event with repeat count 21. -/
def bigWarnEvent : KubeEvent := ⟨some "BackOff", true, "Warning", some 21, none, "r0", some "a"⟩

/-- First warning event of the specification's by-reason scenario. -/
def ev1 : KubeEvent := ⟨some "BackOff", true, "Warning", some 3, none, "r1", some "a"⟩

/-- Second warning event of the specification's by-reason scenario. -/
def ev2 : KubeEvent := ⟨some "BackOff", true, "Warning", some 2, none, "r2", some "b"⟩

/-- Third warning event of the specification's by-reason scenario. -/
def ev3 : KubeEvent := ⟨some "FailedMount", true, "Warning", some 1, none, "r3", some "a"⟩

/-- A node carrying the taint of the specification's taint scenario. -/
def tnode1 : Node := ⟨"t1", false, [], [⟨"dedicated", some "gpu", "NoSchedule"⟩]⟩

/-- A second node carrying the same taint. -/
def tnode2 : Node := ⟨"t2", false, [], [⟨"dedicated", some "gpu", "NoSchedule"⟩]⟩

/-- A schedulable node with two conditions of type Ready; the first has
status "False", the second "True". -/
def dupReadyNode : Node := ⟨"node-dup", false, [⟨"Ready", "False"⟩, ⟨"Ready", "True"⟩], []⟩

/-- A namespace stats record with issue score 5 (as produced for the pods
`failedIssuePod` and `runningPod` with 4 prior warning events). -/
def sampleStatsA : NamespacePodStats := ⟨"a", 1, 0, 1, 0, 0, 1, 0, 4, 5, 2⟩

/-- A namespace stats record with issue score 0. -/
def sampleStatsB : NamespacePodStats := ⟨"b", 0, 0, 0, 0, 1, 0, 0, 0, 0, 1⟩

/-! ## Theorems -/

theorem length_insertIfAbsent (l : List String) (s : String) :
    (insertIfAbsent l s).length ≤ l.length + 1 := by
  unfold insertIfAbsent
  split <;> simp

/-- C5: for every node, the status classifier returns SchedulingDisabled if
the node is unschedulable; otherwise Unknown if no condition of type
"Ready" exists; otherwise Ready exactly when the found Ready condition's
status is the literal "True", and NotReady otherwise. -/
theorem getNodeStatus_spec (n : Node) :
    (n.unschedulable = true → getNodeStatus n = .schedulingDisabled) ∧
    (n.unschedulable = false → (∀ c ∈ n.conditions, c.type_ ≠ "Ready") →
      getNodeStatus n = .unknown) ∧
    (n.unschedulable = false → ∀ c,
      n.conditions.find? (fun c => c.type_ == "Ready") = some c →
      ((getNodeStatus n = .ready ↔ c.status = "True") ∧
        (getNodeStatus n = .notReady ↔ c.status ≠ "True"))) := by
  refine ⟨fun h => by simp [getNodeStatus, h], fun h hc => ?_, fun h c hc => ?_⟩
  · have hnone : n.conditions.find? (fun c => c.type_ == "Ready") = none := by
      rw [List.find?_eq_none]
      intro c hcmem
      simpa using hc c hcmem
    simp [getNodeStatus, h, hnone]
  · by_cases hs : c.status = "True"
    · simp [getNodeStatus, h, hc, hs]
    · have : (c.status == "True") = false := by simpa using hs
      simp [getNodeStatus, h, hc, this, hs]

/-- Witness for C5 at concrete nodes. -/
theorem getNodeStatus_spec_witness :
    getNodeStatus cordonedNode = .schedulingDisabled ∧
    getNodeStatus bareNode = .unknown ∧
    getNodeStatus readyNode = .ready :=
  ⟨(getNodeStatus_spec cordonedNode).1 rfl,
   (getNodeStatus_spec bareNode).2.1 rfl (by simp [bareNode]),
   ((getNodeStatus_spec readyNode).2.2 rfl ⟨"Ready", "True"⟩ (by decide)).1.mpr rfl⟩

/-- C3: a schedulable node with no condition of type "Ready" is classified
Unknown by the status classifier, yet the overview summary counts it in
`nodesNotReady` (its per-node not-ready test holds, and it contributes one
to the count wherever it occurs in the node list). -/
theorem unknown_node_counted_not_ready (n : Node)
    (h1 : n.unschedulable = false)
    (h2 : ∀ c ∈ n.conditions, c.type_ ≠ "Ready") :
    getNodeStatus n = .unknown ∧ nodeNotReadyPred n = true ∧
    ∀ pre suf : List Node,
      nodesNotReady (pre ++ n :: suf) = nodesNotReady pre + nodesNotReady suf + 1 := by
  have hnone : n.conditions.find? (fun c => c.type_ == "Ready") = none := by
    rw [List.find?_eq_none]
    intro c hcmem
    simpa using h2 c hcmem
  refine ⟨by simp [getNodeStatus, h1, hnone], by simp [nodeNotReadyPred, hnone], ?_⟩
  intro pre suf
  simp [nodesNotReady, List.countP_append, List.countP_cons, nodeNotReadyPred, hnone]
  omega

/-- Witness for C3 at a concrete condition-less node. -/
theorem unknown_node_counted_not_ready_witness :
    getNodeStatus bareNode = .unknown ∧
    nodesNotReady [readyNode, bareNode] = 1 := by
  have h := unknown_node_counted_not_ready bareNode rfl (by simp [bareNode])
  refine ⟨h.1, ?_⟩
  have h3 := h.2.2 [readyNode] []
  simpa [nodesNotReady, List.countP, nodeNotReadyPred, readyNode] using h3

/-- C8: every taint summary entry counts at most as many distinct nodes as
taint occurrences, and the summary is sorted descending by occurrences. -/
theorem buildTaintSummary_spec (nodes : List Node) :
    (∀ e ∈ buildTaintSummary nodes, e.nodes ≤ e.occurrences) ∧
    (buildTaintSummary nodes).Pairwise (fun a b => b.occurrences ≤ a.occurrences) := by
  constructor
  · intro e he
    unfold buildTaintSummary at he
    have he' := (List.mergeSort_perm _ _).mem_iff.mp he
    simp only [List.mem_map] at he'
    obtain ⟨p, hp, rfl⟩ := he'
    have hinv := groupGo_invariant (P := fun a : TaintAcc => a.nodes.length ≤ a.occurrences)
      ?_ _ [] (by simp) p hp
    · simpa using hinv
    · intro a ob hob
      rcases ob with _ | b
      · simp [taintStep, insertIfAbsent]
      · have hb := hob b rfl
        simp only [taintStep, Option.getD_some]
        have := length_insertIfAbsent b.nodes a.1
        omega
  · unfold buildTaintSummary
    refine List.Pairwise.imp (fun h => by simpa using h)
      (List.sorted_mergeSort ?_ ?_ _)
    · intro a b c hab hbc
      simp only [decide_eq_true_eq] at *
      omega
    · intro a b
      simp only [Bool.or_eq_true, decide_eq_true_eq]
      omega

/-- Witness for C8 at the specification's two-node taint scenario. -/
theorem buildTaintSummary_spec_witness :
    (⟨"dedicated=gpu:NoSchedule", 2, 2⟩ : TaintSummaryItem).nodes ≤ 2 :=
  (buildTaintSummary_spec [tnode1, tnode2]).1 _ (by
    simp only [buildTaintSummary, List.mem_mergeSort]
    decide)

/-- C9: in every namespace stats entry produced by the scorer, the five
phase counters sum to the total pod count. -/
theorem buildNamespacePodStats_phase_sum (pods : List Pod) (wmap : List (String × Nat)) :
    ∀ e ∈ buildNamespacePodStats pods wmap,
      e.running + e.pending + e.failed + e.succeeded + e.unknown = e.total := by
  intro e he
  simp only [buildNamespacePodStats, List.mem_mergeSort, List.mem_map] at he
  obtain ⟨p, hp, rfl⟩ := he
  have hinv := groupGo_invariant
    (P := fun s : NamespacePodStats =>
      s.running + s.pending + s.failed + s.succeeded + s.unknown = s.total)
    ?_ pods [] (by simp) p hp
  · simpa [podFinalize] using hinv
  · intro a ob hob
    rcases ob with _ | b
    · simp only [podStep, Option.getD_none]
      cases h : getPodPhase a <;> by_cases hi : a.hasIssues <;> simp [h, hi]
    · have hb := hob b rfl
      simp only [podStep, Option.getD_some]
      cases h : getPodPhase a <;> by_cases hi : a.hasIssues <;> simp [h, hi] <;> omega

/-- Witness for C9 at a two-pod namespace. -/
theorem buildNamespacePodStats_phase_sum_witness :
    (1 : Nat) + 0 + 1 + 0 + 0 = 2 :=
  buildNamespacePodStats_phase_sum [failedIssuePod, runningPod] [("a", 4)]
    ⟨"a", 1, 0, 1, 0, 0, 1, 0, 4, 5, 2⟩
    (by simp only [buildNamespacePodStats, List.mem_mergeSort]; decide)

theorem specWarningTotal_cons (e : KubeEvent) (rest : List KubeEvent) :
    specWarningTotal (e :: rest) =
      (if e.isWarning then e.count.getD 1 else 0) + specWarningTotal rest := by
  simp only [specWarningTotal, List.filter_cons]
  split <;> simp_all

theorem eventSummaryGo_warnings (events : List KubeEvent) :
    ∀ w n o : Nat, (eventSummaryGo events w n o).1 = w + specWarningTotal events := by
  induction events with
  | nil => intro w n o; simp [eventSummaryGo, specWarningTotal]
  | cons e rest ih =>
    intro w n o
    rw [specWarningTotal_cons]
    by_cases hw : e.isWarning
    · simp only [eventSummaryGo, hw, if_pos, ih]
      omega
    · by_cases ht : e.type_ == "Normal" <;>
        simp only [eventSummaryGo, hw, ht, Bool.false_eq_true, if_neg, if_pos,
          Bool.not_eq_true, ih] <;> simp [hw] <;> exact ih _ _ _

/-- C4: the per-reason warning counts, the per-namespace warning counts and
the event summary's warning counter all sum to the same total: the summed
`count ?? 1` over the input's warning events. -/
theorem warning_sums_agree (events : List KubeEvent) :
    ((buildWarningReasons events).map (fun i => i.count)).sum = specWarningTotal events ∧
    ((buildWarningEventsByNamespace events).map (fun p => p.2)).sum = specWarningTotal events ∧
    (eventSummary events).warnings = specWarningTotal events := by
  refine ⟨?_, ?_, ?_⟩
  · simp only [buildWarningReasons]
    rw [((List.mergeSort_perm _ _).map (fun i : WarningReasonItem => i.count)).sum_eq,
      List.map_map]
    have hsum := groupGo_sumValsBy eventReasonKey reasonStep ReasonAcc.count
      (fun e => e.count.getD 1)
      (fun a ob => by rcases ob with _ | b <;> simp [reasonStep])
      (events.filter (·.isWarning)) []
    simpa [sumValsBy, specWarningTotal, Function.comp] using hsum
  · have hsum := groupGo_sumValsBy eventNsKey warnNsStep id (fun e => e.count.getD 1)
      (fun a ob => by rcases ob with _ | b <;> simp [warnNsStep])
      (events.filter (·.isWarning)) []
    simpa [buildWarningEventsByNamespace, sumValsBy, specWarningTotal] using hsum
  · simpa [eventSummary] using eventSummaryGo_warnings events 0 0 0

theorem lookupA_of_mem_of_nodup {β : Type} {m : List (String × β)} {k : String} {v : β}
    (hnd : (m.map Prod.fst).Nodup) (h : (k, v) ∈ m) : lookupA m k = some v := by
  induction m with
  | nil => simp at h
  | cons p rest ih =>
    obtain ⟨k₀, v₀⟩ := p
    simp only [List.map_cons, List.nodup_cons] at hnd
    rcases List.mem_cons.mp h with h | h
    · injection h with h1 h2
      subst h1
      subst h2
      simp [lookupA]
    · have hne : k₀ ≠ k := by
        rintro rfl
        exact hnd.1 (List.mem_map_of_mem Prod.fst h)
      simp [lookupA, hne, ih hnd.2 h]

theorem chainStep_none_eq {α β : Type} (step : α → Option β → β) (d : β)
    (hd : ∀ a, step a none = step a (some d)) :
    ∀ es : List α, es ≠ [] → chainStep step es none = chainStep step es (some d)
  | [], h => absurd rfl h
  | a :: rest, _ => by simp [chainStep, hd a]

theorem mem_insertIfAbsent (l : List String) (s s' : String) :
    s' ∈ insertIfAbsent l s ↔ s' ∈ l ∨ s' = s := by
  unfold insertIfAbsent
  split <;> rename_i h
  · constructor
    · exact Or.inl
    · rintro (h' | rfl)
      · exact h'
      · exact h
  · simp

theorem nodup_insertIfAbsent (l : List String) (s : String) (h : l.Nodup) :
    (insertIfAbsent l s).Nodup := by
  unfold insertIfAbsent
  split <;> rename_i hmem
  · exact h
  · simp [List.nodup_append, h, hmem]

/-- Characterization of a full run of `reasonStep` over a list of matching
events, starting from an accumulator holding at most 10 samples. -/
theorem reason_chain (es : List KubeEvent) :
    ∀ a : ReasonAcc, a.resources.length ≤ 10 →
    ∃ b : ReasonAcc, chainStep reasonStep es (some a) = some b ∧
      b.count = a.count + (es.map (fun e => e.count.getD 1)).sum ∧
      b.resources = (a.resources ++ es.map (fun e => e.objName)).take 10 ∧
      (∀ s, s ∈ b.namespaces ↔
        s ∈ a.namespaces ∨ ∃ e ∈ es, jsOrElse e.objNs "cluster" = s) ∧
      (a.namespaces.Nodup → b.namespaces.Nodup) := by
  induction es with
  | nil =>
    intro a h10
    exact ⟨a, rfl, by simp, by simp [chainStep, List.take_of_length_le h10],
      by simp, fun h => h⟩
  | cons e rest ih =>
    intro a h10
    have h10' : (reasonStep e (some a)).resources.length ≤ 10 := by
      simp only [reasonStep, Option.getD_some]
      split <;> rename_i hlen
      · simp only [List.length_append, List.length_cons, List.length_nil]
        omega
      · exact h10
    obtain ⟨b, hb, hc, hr, hn, hd⟩ := ih (reasonStep e (some a)) h10'
    refine ⟨b, by simpa [chainStep] using hb, ?_, ?_, ?_, ?_⟩
    · rw [hc]
      simp only [reasonStep, Option.getD_some, List.map_cons, List.sum_cons]
      omega
    · rw [hr]
      simp only [reasonStep, Option.getD_some, List.map_cons]
      by_cases hlen : a.resources.length < 10
      · simp [hlen, List.append_assoc]
      · have h10eq : a.resources.length = 10 := by omega
        simp only [hlen, if_neg, ite_false]
        rw [List.take_left' h10eq, List.take_left' h10eq]
    · intro s
      rw [hn s]
      simp only [reasonStep, Option.getD_some, mem_insertIfAbsent, List.mem_cons]
      constructor
      · rintro ((h | rfl) | ⟨e', he', rfl⟩)
        · exact Or.inl h
        · exact Or.inr ⟨e, by simp⟩
        · exact Or.inr ⟨e', by simp [he']⟩
      · rintro (h | ⟨e', he' | he', rfl⟩)
        · exact Or.inl (Or.inl h)
        · subst he'
          exact Or.inl (Or.inr rfl)
        · exact Or.inr ⟨e', he', rfl⟩
    · intro hnd
      exact hd (nodup_insertIfAbsent _ _ (by simpa [reasonStep] using hnd))

/-- C10: every by-reason summary entry carries, as its resources sample,
exactly the involved-object names of the first (up to 10) warning events
whose reason resolves to that entry's reason, in input order; all matching
warning events contribute to the entry's count, and its namespaces are the
distinct resolved namespaces of all matching warning events. -/
theorem buildWarningReasons_entries (events : List KubeEvent) :
    ∀ i ∈ buildWarningReasons events,
      i.resources = ((events.filter (fun e => e.isWarning &&
          eventReasonKey e = i.reason)).map (fun e => e.objName)).take 10 ∧
      i.count = ((events.filter (fun e => e.isWarning &&
          eventReasonKey e = i.reason)).map (fun e => e.count.getD 1)).sum ∧
      i.namespaces.Nodup ∧
      (∀ s, s ∈ i.namespaces ↔
        ∃ e ∈ events.filter (fun e => e.isWarning && eventReasonKey e = i.reason),
          jsOrElse e.objNs "cluster" = s) := by
  intro i hi
  simp only [buildWarningReasons, List.mem_mergeSort, List.mem_map] at hi
  obtain ⟨⟨k, acc⟩, hp, rfl⟩ := hi
  have hnd : ((groupGo eventReasonKey reasonStep
      (events.filter (fun e => e.isWarning)) []).map Prod.fst).Nodup :=
    groupGo_keys_nodup _ _ _ [] (by simp)
  have hlk := lookupA_of_mem_of_nodup hnd hp
  rw [groupGo_lookupA] at hlk
  simp only [lookupA] at hlk
  rw [List.filter_filter] at hlk
  have hfeq : (events.filter (fun e => decide (eventReasonKey e = k) && e.isWarning)) =
      (events.filter (fun e => e.isWarning && decide (eventReasonKey e = k))) :=
    List.filter_congr (fun e _ => by rw [Bool.and_comm])
  rw [hfeq] at hlk
  rcases hes : events.filter (fun e => e.isWarning && decide (eventReasonKey e = k)) with
    _ | ⟨e₀, esr⟩
  · rw [hes] at hlk
    simp [chainStep] at hlk
  · rw [hes] at hlk
    rw [chainStep_none_eq reasonStep ⟨0, [], []⟩ (fun a => rfl) _ (by simp)] at hlk
    obtain ⟨b, hb, hc, hr, hn, hd⟩ := reason_chain (e₀ :: esr) ⟨0, [], []⟩ (by simp)
    rw [hb] at hlk
    obtain rfl : b = acc := by injection hlk
    refine ⟨?_, ?_, ?_, ?_⟩
    · simpa [hes] using hr
    · simpa [hes] using hc
    · exact hd (by simp)
    · intro s
      have := hn s
      simp only [List.not_mem_nil, false_or] at this
      simpa [hes] using this

/-- Witness for C10 at the specification's by-reason scenario: the BackOff
entry samples the two matching resources in input order. -/
theorem buildWarningReasons_entries_witness :
    (⟨"BackOff", 5, ["a", "b"], ["r1", "r2"]⟩ : WarningReasonItem).resources =
      ((([ev1, ev2, ev3] : List KubeEvent).filter (fun e => e.isWarning &&
        eventReasonKey e = "BackOff")).map (fun e => e.objName)).take 10 :=
  (buildWarningReasons_entries [ev1, ev2, ev3] _
    (by simp only [buildWarningReasons, List.mem_mergeSort]; decide)).1

theorem groupGo_pair_invariant {α β : Type} {key : α → String} {step : α → Option β → β}
    {P : String × β → Prop}
    (hstep : ∀ a ob, (∀ b, ob = some b → P (key a, b)) → P (key a, step a ob)) :
    ∀ (l : List α) (m : List (String × β)), (∀ p ∈ m, P p) →
      ∀ p ∈ groupGo key step l m, P p
  | [], _, hm => hm
  | a :: rest, m, hm => by
    refine groupGo_pair_invariant hstep rest _ ?_
    intro p hp
    rcases mem_setA hp with rfl | hp'
    · exact hstep a _ (fun b hb => hm _ (lookupA_mem hb))
    · exact hm _ hp'

theorem podStep_ns (wmap : List (String × Nat)) (a : Pod) (ob : Option NamespacePodStats)
    (hob : ∀ b, ob = some b → b.ns = podNsKey a) :
    (podStep wmap a ob).ns = podNsKey a := by
  rcases ob with _ | b
  · cases h : getPodPhase a <;> by_cases hi : a.hasIssues <;> simp [podStep, h, hi]
  · have hb := hob b rfl
    cases h : getPodPhase a <;> by_cases hi : a.hasIssues <;> simp [podStep, h, hi, hb]

/-- C6: the namespace scorer returns one entry per distinct pod namespace;
each entry's warning-event count comes from the provided mapping (0 when
the namespace is absent) and its issueScore equals issues + restarts +
warningEvents; and the output is sorted descending by issue count with
ties broken by descending total pod count. -/
theorem buildNamespacePodStats_spec (pods : List Pod) (wmap : List (String × Nat)) :
    ((buildNamespacePodStats pods wmap).map NamespacePodStats.ns).Nodup ∧
    (∀ s, s ∈ (buildNamespacePodStats pods wmap).map NamespacePodStats.ns ↔
      s ∈ pods.map podNsKey) ∧
    (∀ e ∈ buildNamespacePodStats pods wmap,
      e.warningEvents = (lookupA wmap e.ns).getD 0 ∧
      e.issueScore = e.issues + e.restarts + e.warningEvents) ∧
    (buildNamespacePodStats pods wmap).Pairwise
      (fun a b => b.issues < a.issues ∨ (b.issues = a.issues ∧ b.total ≤ a.total)) := by
  have hns : ∀ p ∈ groupGo podNsKey (podStep wmap) pods [], p.2.ns = p.1 :=
    groupGo_pair_invariant (P := fun p => p.2.ns = p.1)
      (fun a ob hob => podStep_ns wmap a ob hob) pods [] (by simp)
  have hmapeq : ((groupGo podNsKey (podStep wmap) pods []).map
      (fun p => podFinalize wmap p.2)).map NamespacePodStats.ns =
      (groupGo podNsKey (podStep wmap) pods []).map Prod.fst := by
    rw [List.map_map]
    exact List.map_congr_left (fun p hp => hns p hp)
  have hperm : List.Perm
      ((buildNamespacePodStats pods wmap).map NamespacePodStats.ns)
      ((groupGo podNsKey (podStep wmap) pods []).map Prod.fst) := by
    rw [← hmapeq]
    exact (List.mergeSort_perm _ _).map _
  refine ⟨?_, ?_, ?_, ?_⟩
  · rw [hperm.nodup_iff]
    exact groupGo_keys_nodup _ _ pods [] (by simp)
  · intro s
    rw [hperm.mem_iff]
    have := groupGo_keys_mem podNsKey (podStep wmap) pods [] s
    simpa using this
  · intro e he
    simp only [buildNamespacePodStats, List.mem_mergeSort, List.mem_map] at he
    obtain ⟨p, _, rfl⟩ := he
    exact ⟨rfl, rfl⟩
  · simp only [buildNamespacePodStats]
    refine List.Pairwise.imp ?_ (List.sorted_mergeSort ?_ ?_ _)
    · intro a b h
      simpa using h
    · intro a b c hab hbc
      simp only [Bool.or_eq_true, Bool.and_eq_true, decide_eq_true_eq, beq_iff_eq] at *
      omega
    · intro a b
      simp only [Bool.or_eq_true, Bool.and_eq_true, decide_eq_true_eq, beq_iff_eq]
      omega

/-- Witness for C6 at a two-pod namespace with four prior warning events:
issueScore = 1 issue + 0 restarts + 4 warning events. -/
theorem buildNamespacePodStats_spec_witness :
    (⟨"a", 1, 0, 1, 0, 0, 1, 0, 4, 5, 2⟩ : NamespacePodStats).issueScore =
      (⟨"a", 1, 0, 1, 0, 0, 1, 0, 4, 5, 2⟩ : NamespacePodStats).issues +
      (⟨"a", 1, 0, 1, 0, 0, 1, 0, 4, 5, 2⟩ : NamespacePodStats).restarts +
      (⟨"a", 1, 0, 1, 0, 0, 1, 0, 4, 5, 2⟩ : NamespacePodStats).warningEvents :=
  ((buildNamespacePodStats_spec [failedIssuePod, runningPod] [("a", 4)]).2.2.1
    ⟨"a", 1, 0, 1, 0, 0, 1, 0, 4, 5, 2⟩
    (by simp only [buildNamespacePodStats, List.mem_mergeSort]; decide)).2

/-- The rational threshold chain of the heatmap bucket translated to
natural-number comparisons. -/
theorem bucketOf_eq (m s : Nat) :
    bucketOf m s =
      if m = 0 ∨ s = 0 then 0
      else if 3 * m ≤ 4 * s then 4
      else if m ≤ 2 * s then 3
      else if m ≤ 4 * s then 2
      else 1 := by
  unfold bucketOf
  by_cases hm : m = 0
  · subst hm
    norm_num
  · have hm' : 0 < m := Nat.pos_of_ne_zero hm
    have hmQ : (0:ℚ) < (m:ℚ) := by exact_mod_cast hm'
    have h34 : ((3:ℚ)/4 ≤ (s:ℚ)/(m:ℚ)) ↔ 3 * m ≤ 4 * s := by
      rw [div_le_div_iff₀ (by norm_num) hmQ]
      constructor
      · intro h
        have h' : ((3 * m : ℕ) : ℚ) ≤ ((4 * s : ℕ) : ℚ) := by push_cast; linarith
        exact_mod_cast h'
      · intro h
        have h' : ((3 * m : ℕ) : ℚ) ≤ ((4 * s : ℕ) : ℚ) := by exact_mod_cast h
        push_cast at h'
        linarith
    have h12 : ((1:ℚ)/2 ≤ (s:ℚ)/(m:ℚ)) ↔ m ≤ 2 * s := by
      rw [div_le_div_iff₀ (by norm_num) hmQ]
      constructor
      · intro h
        have h' : ((m : ℕ) : ℚ) ≤ ((2 * s : ℕ) : ℚ) := by push_cast; linarith
        exact_mod_cast h'
      · intro h
        have h' : ((m : ℕ) : ℚ) ≤ ((2 * s : ℕ) : ℚ) := by exact_mod_cast h
        push_cast at h'
        linarith
    have h14 : ((1:ℚ)/4 ≤ (s:ℚ)/(m:ℚ)) ↔ m ≤ 4 * s := by
      rw [div_le_div_iff₀ (by norm_num) hmQ]
      constructor
      · intro h
        have h' : ((m : ℕ) : ℚ) ≤ ((4 * s : ℕ) : ℚ) := by push_cast; linarith
        exact_mod_cast h'
      · intro h
        have h' : ((m : ℕ) : ℚ) ≤ ((4 * s : ℕ) : ℚ) := by exact_mod_cast h
        push_cast at h'
        linarith
    have hpos : ((0:ℚ) < (s:ℚ)/(m:ℚ)) ↔ 0 < s := by
      rw [div_pos_iff_of_pos_right hmQ]
      exact_mod_cast Iff.rfl
    by_cases hs : s = 0
    · subst hs
      simp only [if_neg hm]
      norm_num
    · simp only [if_neg hm, h34, h12, h14, hpos]
      simp [hm, hs, Nat.pos_of_ne_zero hs]

/-- C7: the heatmap bucketizer preserves the entries and their input order;
each intensity follows the threshold chain on issueScore / maxScore (taken
as 0 when maxScore is 0); an entry whose issueScore equals a positive
maxScore buckets to 4; and an entry with issueScore 0 buckets to 0. -/
theorem heatmapEntries_spec (l : List NamespacePodStats) :
    (heatmapEntries l).map HeatmapEntry.toNamespacePodStats = l ∧
    (∀ e ∈ heatmapEntries l, e.intensity =
      (if maxIssueScore l = 0 ∨ e.issueScore = 0 then 0
       else if 3 * maxIssueScore l ≤ 4 * e.issueScore then 4
       else if maxIssueScore l ≤ 2 * e.issueScore then 3
       else if maxIssueScore l ≤ 4 * e.issueScore then 2
       else 1)) ∧
    (∀ e ∈ heatmapEntries l, e.issueScore = maxIssueScore l → 0 < maxIssueScore l →
      e.intensity = 4) ∧
    (∀ e ∈ heatmapEntries l, e.issueScore = 0 → e.intensity = 0) := by
  have hmain : ∀ e ∈ heatmapEntries l,
      e.intensity = bucketOf (maxIssueScore l) e.issueScore := by
    intro e he
    simp only [heatmapEntries, List.mem_map] at he
    obtain ⟨v, _, rfl⟩ := he
    rfl
  refine ⟨?_, ?_, ?_, ?_⟩
  · simp only [heatmapEntries]
    rw [List.map_map]
    exact (List.map_congr_left (fun e _ => rfl)).trans (List.map_id _)
  · intro e he
    rw [hmain e he, bucketOf_eq]
  · intro e he hmax hpos
    rw [hmain e he, bucketOf_eq, hmax]
    split_ifs <;> omega
  · intro e he hz
    rw [hmain e he, bucketOf_eq, hz]
    simp

/-- Witness for C7 at a two-entry list with maximum score 5: the maximal
entry buckets to 4. -/
theorem heatmapEntries_spec_witness :
    ({ toNamespacePodStats := sampleStatsA,
       intensity := bucketOf (maxIssueScore [sampleStatsA, sampleStatsB])
         sampleStatsA.issueScore } : HeatmapEntry).intensity = 4 :=
  (heatmapEntries_spec [sampleStatsA, sampleStatsB]).2.2.1
    _ (by simp only [heatmapEntries]; exact List.mem_map_of_mem _ (by simp))
    (by decide) (by decide)

/-- C1 counterexample: one ready node, an empty pod list and no events
satisfy the claim's hypotheses (all nodes ready, zero pod issues, zero
failures, zero warning counts), yet the score is 60, not 100 — the pod
term `(0 - 0 - 0) / max(0, 1) * 40` contributes 0. A second input shows
the Ready-condition hypothesis must be read on the first condition of
type Ready: a node that does have a Ready condition with status "True"
behind a Ready/"False" one is still counted not-ready, and again the
score is 60. -/
theorem clusterHealthScore_claim_counterexample :
    nodesNotReady [readyNode] = 0 ∧ podsWithIssues ([] : List Pod) = 0 ∧
    failedPods ([] : List Pod) = 0 ∧ warningEventsCount ([] : List KubeEvent) = 0 ∧
    clusterHealthScore [readyNode] [] [] = 60 ∧
    dupReadyNode.conditions.contains ⟨"Ready", "True"⟩ = true ∧
    clusterHealthScore [dupReadyNode] [runningPod] [] = 60 := by
  refine ⟨rfl, rfl, rfl, rfl, ?_, rfl, ?_⟩
  · have h1 : nodesNotReady [readyNode] = 0 := rfl
    have h2 : podsWithIssues ([] : List Pod) = 0 := rfl
    have h3 : failedPods ([] : List Pod) = 0 := rfl
    have h4 : warningEventsCount ([] : List KubeEvent) = 0 := rfl
    unfold clusterHealthScore
    rw [h1, h2, h3, h4]
    norm_num [jsRound, Int.floor_eq_iff]
  · have h1 : nodesNotReady [dupReadyNode] = 1 := rfl
    have h2 : podsWithIssues [runningPod] = 0 := rfl
    have h3 : failedPods [runningPod] = 0 := rfl
    have h4 : warningEventsCount ([] : List KubeEvent) = 0 := rfl
    unfold clusterHealthScore
    rw [h1, h2, h3, h4]
    norm_num [jsRound, Int.floor_eq_iff]

/-- C1 (amended): the score is 100 when the node list is empty; and it is
100 when every node has a condition of type "Ready", every such condition
has status "True", no pod has issues, no pod reports phase "Failed", the
summed warning count is 0, and the pod list is nonempty. -/
theorem clusterHealthScore_100 (nodes : List Node) (pods : List Pod)
    (events : List KubeEvent) :
    (nodes = [] → clusterHealthScore nodes pods events = 100) ∧
    ((∀ n ∈ nodes, (∃ c ∈ n.conditions, c.type_ = "Ready") ∧
        ∀ c ∈ n.conditions, c.type_ = "Ready" → c.status = "True") →
      (∀ p ∈ pods, p.hasIssues = false) →
      (∀ p ∈ pods, p.phase ≠ "Failed") →
      warningEventsCount events = 0 →
      pods ≠ [] →
      clusterHealthScore nodes pods events = 100) := by
  constructor
  · rintro rfl
    simp [clusterHealthScore]
  · intro hn hp hf hw hpne
    rcases hnodes : nodes with _ | ⟨n0, nrest⟩
    · simp [clusterHealthScore]
    · rw [← hnodes]
      have hlen : 0 < nodes.length := by rw [hnodes]; simp
      have hnnr : nodesNotReady nodes = 0 := by
        rw [nodesNotReady, List.countP_eq_zero]
        intro n hnmem
        obtain ⟨⟨c, hcmem, hcty⟩, hall⟩ := hn n hnmem
        have hisSome : (n.conditions.find? (fun c => c.type_ == "Ready")).isSome := by
          rw [List.find?_isSome]
          exact ⟨c, hcmem, by simp [hcty]⟩
        obtain ⟨c', hc'⟩ := Option.isSome_iff_exists.mp hisSome
        have hc'mem := List.mem_of_find?_eq_some hc'
        have hc'ty : c'.type_ = "Ready" := by simpa using List.find?_some hc'
        have hc'st : c'.status = "True" := hall c' hc'mem hc'ty
        simp [nodeNotReadyPred, hc', hc'st]
      have hpwi : podsWithIssues pods = 0 := by
        rw [podsWithIssues, List.countP_eq_zero]
        intro p hpmem
        simp [hp p hpmem]
      have hfp : failedPods pods = 0 := by
        rw [failedPods, List.countP_eq_zero]
        intro p hpmem
        simpa using hf p hpmem
      have hppos : 0 < pods.length := List.length_pos.mpr hpne
      have hLne : ((nodes.length : ℚ)) ≠ 0 := by
        have : (0:ℚ) < (nodes.length : ℚ) := by exact_mod_cast hlen
        exact ne_of_gt this
      have hPone : (1:ℚ) ≤ (pods.length : ℚ) := by exact_mod_cast hppos
      have hPne : ((pods.length : ℚ)) ≠ 0 := by
        intro h
        rw [h] at hPone
        norm_num at hPone
      unfold clusterHealthScore
      rw [if_pos hlen, hnnr, hpwi, hfp, hw, max_eq_left hPone]
      push_cast
      rw [sub_zero, sub_zero, sub_zero, div_self hLne, div_self hPne]
      norm_num [jsRound, Int.floor_eq_iff]

/-- Witness for the amended C1: one ready node, one healthy running pod,
no events. -/
theorem clusterHealthScore_100_witness :
    clusterHealthScore [readyNode] [runningPod] [] = 100 :=
  (clusterHealthScore_100 [readyNode] [runningPod] []).2
    (by decide) (by decide) (by decide) rfl (by simp)

/-- C2 counterexample: one not-ready node, one pod that is both Failed and
flagged with issues, and 21 summed warning counts drive the score to -40,
below 0 — `podsWithIssues + failedPods` exceeds the pod count. -/
theorem clusterHealthScore_negative_counterexample :
    podsWithIssues [failedIssuePod] + failedPods [failedIssuePod] = 2 ∧
    clusterHealthScore [bareNode] [failedIssuePod] [bigWarnEvent] = -40 ∧
    clusterHealthScore [bareNode] [failedIssuePod] [bigWarnEvent] < 0 := by
  have h1 : nodesNotReady [bareNode] = 1 := rfl
  have h2 : podsWithIssues [failedIssuePod] = 1 := rfl
  have h3 : failedPods [failedIssuePod] = 1 := rfl
  have h4 : warningEventsCount [bigWarnEvent] = 21 := rfl
  have hscore : clusterHealthScore [bareNode] [failedIssuePod] [bigWarnEvent] = -40 := by
    unfold clusterHealthScore
    rw [h1, h2, h3, h4]
    norm_num [jsRound, Int.floor_eq_iff]
  exact ⟨rfl, hscore, by rw [hscore]; norm_num⟩

/-- C2 (amended): the health score never exceeds 100 for any input drawn
from the collections, but it is not bounded below by 0 (see the
counterexample); only the upper bound needs no clamp. -/
theorem clusterHealthScore_le_100 (nodes : List Node) (pods : List Pod)
    (events : List KubeEvent) : clusterHealthScore nodes pods events ≤ 100 := by
  unfold clusterHealthScore
  split <;> rename_i hn
  · have hnQ : (0:ℚ) < (nodes.length : ℚ) := by exact_mod_cast hn
    have h1 : (((nodes.length : ℚ) - (nodesNotReady nodes : ℚ)) / (nodes.length : ℚ)) * 40
        ≤ 40 := by
      have hd : ((nodes.length : ℚ) - (nodesNotReady nodes : ℚ)) / (nodes.length : ℚ) ≤ 1 := by
        rw [div_le_one hnQ]
        have : (0:ℚ) ≤ (nodesNotReady nodes : ℚ) := by positivity
        linarith
      linarith
    have hdQ : (0:ℚ) < max (pods.length : ℚ) 1 := lt_max_of_lt_right one_pos
    have h2 : (((pods.length : ℚ) - (podsWithIssues pods : ℚ) - (failedPods pods : ℚ)) /
        max (pods.length : ℚ) 1) * 40 ≤ 40 := by
      have hnum : ((pods.length : ℚ) - (podsWithIssues pods : ℚ) - (failedPods pods : ℚ))
          ≤ max (pods.length : ℚ) 1 := by
        have h0 : (0:ℚ) ≤ (podsWithIssues pods : ℚ) := by positivity
        have h0' : (0:ℚ) ≤ (failedPods pods : ℚ) := by positivity
        have : (pods.length : ℚ) ≤ max (pods.length : ℚ) 1 := le_max_left _ _
        linarith
      have hd : ((pods.length : ℚ) - (podsWithIssues pods : ℚ) - (failedPods pods : ℚ)) /
          max (pods.length : ℚ) 1 ≤ 1 := by
        rw [div_le_one hdQ]
        exact hnum
      linarith
    have h3 : (if warningEventsCount events = 0 then (20:ℚ)
        else max 0 (20 - (warningEventsCount events : ℚ))) ≤ 20 := by
      split
      · norm_num
      · apply max_le
        · norm_num
        · have : (0:ℚ) ≤ (warningEventsCount events : ℚ) := by positivity
          linarith
    have hsum : (((nodes.length : ℚ) - (nodesNotReady nodes : ℚ)) / (nodes.length : ℚ)) * 40 +
        (((pods.length : ℚ) - (podsWithIssues pods : ℚ) - (failedPods pods : ℚ)) /
          max (pods.length : ℚ) 1) * 40 +
        (if warningEventsCount events = 0 then (20:ℚ)
          else max 0 (20 - (warningEventsCount events : ℚ))) ≤ 100 := by
      linarith
    have hfl : jsRound (((nodes.length : ℚ) - (nodesNotReady nodes : ℚ)) / (nodes.length : ℚ) * 40 +
        (((pods.length : ℚ) - (podsWithIssues pods : ℚ) - (failedPods pods : ℚ)) /
          max (pods.length : ℚ) 1) * 40 +
        (if warningEventsCount events = 0 then (20:ℚ)
          else max 0 (20 - (warningEventsCount events : ℚ)))) ≤ jsRound 100 := by
      unfold jsRound
      exact Int.floor_le_floor (by linarith)
    have h100 : jsRound 100 = 100 := by
      unfold jsRound
      norm_num [Int.floor_eq_iff]
    omega
  · norm_num

end SreStats
